import Mathlib

/-!
Shallow embedding of `crates/telio-firewall/src/tp_lite_stats.rs`: the TP-Lite
stats bridge between the native libfirewall engine and an application callback.

Modelling conventions:
* Machine integers (`u8`, `u16`, `u32`, `u64`, `usize`) are modelled as `Nat`;
  no arithmetic in this module can overflow or wrap, the code only copies them.
* A foreign pointer-and-count array is modelled as a `List` of the pointed-to
  elements together with the separate count; `slice::from_raw_parts(p, n)` is
  `List.take n` (the caller contract `n <= length` appears as a hypothesis
  where a theorem needs it).
* A C string pointer (`*const c_char`) is modelled as the `List Nat` of bytes
  in memory starting at the pointer; `CStr::from_ptr` reads up to the first
  NUL byte, i.e. `List.takeWhile (· ≠ 0)`.
* A Rust `String` is modelled as its list of Unicode scalar values
  (`List Nat`); `String::from_utf8_lossy` is the WHATWG UTF-8 decoder with
  U+FFFD substitution per maximal subpart, `utf8DecodeLoop` below.
* The heap of callback trampoline slots is explicit: `Heap` maps addresses to
  the callback stored there, and a callback value is an opaque identifier
  (`CB := Nat`).  Rust heap allocations are never at address 0, which the
  model captures by starting allocation at address 1.
-/

namespace TpLiteStats

/-- A callback identity: the model of a `Box<dyn TpLiteStatsCallback>` value.
Distinct registered callbacks get distinct identifiers. -/
abbrev CB := Nat

/-- The model of `NoopCallback`, the inert default callback. -/
def NoopCallback : CB := 0

/-- The heap holding callback slots: a partial map from addresses to the
callback currently stored at that address, plus an allocation frontier.
Allocation starts at 1 because a live Rust `Box` allocation is never null. -/
structure Heap where
  mem : Nat → Option CB
  next : Nat

/-- A heap is well formed when its allocation frontier never hands out the
null address. -/
def Heap.WF (h : Heap) : Prop := 1 ≤ h.next

/-- The empty heap, before the firewall is initialized. -/
def Heap.empty : Heap := ⟨fun _ => none, 1⟩

/-- Allocate a fresh slot holding `cb`; returns its (non-null) address.
Models `Box::new`. -/
def Heap.alloc (h : Heap) (cb : CB) : Nat × Heap :=
  (h.next, ⟨fun a => if a = h.next then some cb else h.mem a, h.next + 1⟩)

/-- `CallbackManager` from the source: it owns one heap slot (the inner
`Box<Box<dyn TpLiteStatsCallback>>` allocation) whose address is the opaque
handle handed to the native engine.  Only the address is part of the
manager value; the slot's contents live in the `Heap`. -/
structure CallbackManager where
  addr : Nat

/-- `CallbackManager::new`: allocates the slot holding `NoopCallback`. -/
def CallbackManager.new (h : Heap) : CallbackManager × Heap :=
  let p := h.alloc NoopCallback
  (⟨p.1⟩, p.2)

/-- `CallbackManager::as_raw_ptr`: the address of the callback slot, exported
to the native engine as the opaque context value. -/
def CallbackManager.as_raw_ptr (m : CallbackManager) : Nat := m.addr

/-- Modelled from the spec: the `register` operation is not part of
`tp_lite_stats.rs` (only the manager and the trampoline are); per the spec it
"replaces the active callback" by mutating "the interior under a lock, never
the exported address itself".  In the model this overwrites the manager's
slot in place and leaves the manager value (hence the exported address)
untouched. -/
def CallbackManager.register (m : CallbackManager) (h : Heap) (cb : CB) :
    CallbackManager × Heap :=
  (m, ⟨fun a => if a = m.addr then some cb else h.mem a, h.next⟩)

/-- A whole sequence of `register` calls, applied in order. -/
def registerSeq (m : CallbackManager) (h : Heap) (cbs : List CB) :
    CallbackManager × Heap :=
  cbs.foldl (fun s cb => s.1.register s.2 cb) (m, h)

/-- The callback a manager's slot currently resolves to. -/
def activeCallback (h : Heap) (m : CallbackManager) : Option CB :=
  h.mem m.addr

/-- The model of `std::collections::HashMap` with `Nat` keys and values, as a
lookup function.  `u16` and `u8` keys are both embedded into `Nat`. -/
def HMap := Nat → Option Nat

/-- The empty map. -/
def HMap.empty : HMap := fun _ => none

/-- `HashMap::insert`: later inserts overwrite earlier ones. -/
def HMap.insert (m : HMap) (k v : Nat) : HMap :=
  fun x => if x = k then some v else m x

/-- `Iterator::collect::<HashMap<_, _>>()` over a sequence of pairs: insert
each pair in traversal order into an initially empty map. -/
def hashMapCollect (l : List (Nat × Nat)) : HMap :=
  l.foldl (fun m p => m.insert p.1 p.2) HMap.empty

/-- One element of a libfirewall distribution table: a (key, count) pair.
The field names `rr_type` and `count` follow the accesses in the source
(`count.rr_type`, `count.count`). -/
structure LibfwRecordCount where
  rr_type : Nat
  count : Nat

/-- `LibfwDnsMetrics`, the foreign metrics value: five counters plus two
pointer-and-count distribution tables.  Each table pointer is modelled as the
list of elements in memory at the pointer, with the count a separate field. -/
structure LibfwDnsMetrics where
  num_requests : Nat
  num_responses : Nat
  num_malformed_requests : Nat
  num_malformed_responses : Nat
  num_cache_hits : Nat
  record_type_distribution : List LibfwRecordCount
  num_record_types : Nat
  response_code_distribution : List LibfwRecordCount
  num_response_codes : Nat

/-- `DnsMetrics`: "LibfwDnsMetrics but with nicer types". -/
structure DnsMetrics where
  num_requests : Nat
  num_responses : Nat
  num_malformed_requests : Nat
  num_malformed_responses : Nat
  num_cache_hits : Nat
  record_type_distribution : HMap
  response_code_distribution : HMap

/-- The (key, count) pairs the conversion traverses for the record-type
table: the slice of length `num_record_types`, mapped through
`|count| (count.rr_type, count.count)`. -/
def recordTypePairs (metrics : LibfwDnsMetrics) : List (Nat × Nat) :=
  (metrics.record_type_distribution.take metrics.num_record_types).map
    (fun count => (count.rr_type, count.count))

/-- The (key, count) pairs the conversion traverses for the response-code
table. -/
def responseCodePairs (metrics : LibfwDnsMetrics) : List (Nat × Nat) :=
  (metrics.response_code_distribution.take metrics.num_response_codes).map
    (fun count => (count.rr_type, count.count))

/-- `impl From<LibfwDnsMetrics> for DnsMetrics`: copy the five counters by
value and collect each sliced distribution table into a map. -/
def dnsMetricsFrom (metrics : LibfwDnsMetrics) : DnsMetrics :=
  { num_requests := metrics.num_requests
    num_responses := metrics.num_responses
    num_malformed_requests := metrics.num_malformed_requests
    num_malformed_responses := metrics.num_malformed_responses
    num_cache_hits := metrics.num_cache_hits
    record_type_distribution := hashMapCollect (recordTypePairs metrics)
    response_code_distribution := hashMapCollect (responseCodePairs metrics) }

/-- UTF-8 encoding of one Unicode scalar value, as the bytes Rust's `String`
stores for one `char`. -/
def utf8EncodeChar (c : Nat) : List Nat :=
  if c < 0x80 then [c]
  else if c < 0x800 then [0xC0 + c / 0x40, 0x80 + c % 0x40]
  else if c < 0x10000 then
    [0xE0 + c / 0x1000, 0x80 + (c / 0x40) % 0x40, 0x80 + c % 0x40]
  else
    [0xF0 + c / 0x40000, 0x80 + (c / 0x1000) % 0x40, 0x80 + (c / 0x40) % 0x40,
      0x80 + c % 0x40]

/-- UTF-8 encoding of a whole scalar-value sequence: the byte representation
of a Rust `String`. -/
def utf8Encode (cps : List Nat) : List Nat :=
  cps.foldr (fun c acc => utf8EncodeChar c ++ acc) []

/-- One step of the WHATWG UTF-8 decoder that underlies
`String::from_utf8_lossy`.  Given the first byte and the remaining bytes it
returns the decoded scalar value (`0xFFFD` on an ill-formed subsequence), a
flag saying whether the consumed bytes were well formed, and the unconsumed
bytes.  On an ill-formed subsequence it consumes exactly the maximal subpart
(the failing byte itself is not consumed), matching Rust's lossy decoding. -/
def utf8Step (b0 : Nat) (rest : List Nat) : Nat × Bool × List Nat :=
  if b0 < 0x80 then (b0, true, rest)
  else if b0 < 0xC2 then (0xFFFD, false, rest)
  else if b0 < 0xE0 then
    match rest with
    | [] => (0xFFFD, false, [])
    | b1 :: r1 =>
      if 0x80 ≤ b1 ∧ b1 < 0xC0 then
        ((b0 - 0xC0) * 0x40 + (b1 - 0x80), true, r1)
      else (0xFFFD, false, b1 :: r1)
  else if b0 < 0xF0 then
    match rest with
    | [] => (0xFFFD, false, [])
    | b1 :: r1 =>
      if (0xA0 ≤ b1 ∨ b0 ≠ 0xE0) ∧ (b1 < 0xA0 ∨ b0 ≠ 0xED) ∧
          0x80 ≤ b1 ∧ b1 < 0xC0 then
        match r1 with
        | [] => (0xFFFD, false, [])
        | b2 :: r2 =>
          if 0x80 ≤ b2 ∧ b2 < 0xC0 then
            ((b0 - 0xE0) * 0x1000 + (b1 - 0x80) * 0x40 + (b2 - 0x80), true, r2)
          else (0xFFFD, false, b2 :: r2)
      else (0xFFFD, false, b1 :: r1)
  else if b0 < 0xF5 then
    match rest with
    | [] => (0xFFFD, false, [])
    | b1 :: r1 =>
      if (0x90 ≤ b1 ∨ b0 ≠ 0xF0) ∧ (b1 < 0x90 ∨ b0 ≠ 0xF4) ∧
          0x80 ≤ b1 ∧ b1 < 0xC0 then
        match r1 with
        | [] => (0xFFFD, false, [])
        | b2 :: r2 =>
          if 0x80 ≤ b2 ∧ b2 < 0xC0 then
            match r2 with
            | [] => (0xFFFD, false, [])
            | b3 :: r3 =>
              if 0x80 ≤ b3 ∧ b3 < 0xC0 then
                ((b0 - 0xF0) * 0x40000 + (b1 - 0x80) * 0x1000 +
                  (b2 - 0x80) * 0x40 + (b3 - 0x80), true, r3)
              else (0xFFFD, false, b3 :: r3)
          else (0xFFFD, false, b2 :: r2)
      else (0xFFFD, false, b1 :: r1)
  else (0xFFFD, false, rest)

/-- `String::from_utf8_lossy`: decode the byte sequence into scalar values,
substituting `0xFFFD` for each maximal subpart of an ill-formed
subsequence. -/
def utf8DecodeLoop : List Nat → List Nat
  | [] => []
  | b0 :: rest =>
    (utf8Step b0 rest).1 :: utf8DecodeLoop (utf8Step b0 rest).2.2
termination_by l => l.length
decreasing_by
  simp only [List.length_cons]
  refine Nat.lt_succ_of_le ?_
  unfold utf8Step
  repeat' split
  all_goals simp_all
  all_goals omega

/-- Whether a byte sequence is well-formed UTF-8: every decoder step reports
well-formedness. -/
def utf8ValidLoop : List Nat → Bool
  | [] => true
  | b0 :: rest =>
    (utf8Step b0 rest).2.1 && utf8ValidLoop (utf8Step b0 rest).2.2
termination_by l => l.length
decreasing_by
  simp only [List.length_cons]
  refine Nat.lt_succ_of_le ?_
  unfold utf8Step
  repeat' split
  all_goals simp_all
  all_goals omega

/-- `CStr::from_ptr` followed by `.to_bytes()`: the bytes in memory at the
pointer up to (not including) the first NUL byte. -/
def cstrBytes (memBytes : List Nat) : List Nat :=
  memBytes.takeWhile (fun b => b ≠ 0)

/-- `LibfwBlockedDomain`, the foreign record: two C-string pointers (each
modelled as the byte contents of memory at the pointer) and two numeric
fields. -/
structure LibfwBlockedDomain where
  domain_name : List Nat
  record_type : Nat
  timestamp : Nat
  category : List Nat

/-- `BlockedDomain`: "LibfwBlockedDomain but with nicer types".  The two
`String` fields are modelled as scalar-value lists. -/
structure BlockedDomain where
  domain_name : List Nat
  record_type : Nat
  timestamp : Nat
  category : List Nat

/-- `impl From<&LibfwBlockedDomain> for BlockedDomain`: lossily decode the two
C strings, copy the two numeric fields by value. -/
def blockedDomainFrom (domain : LibfwBlockedDomain) : BlockedDomain :=
  { domain_name := utf8DecodeLoop (cstrBytes domain.domain_name)
    record_type := domain.record_type
    timestamp := domain.timestamp
    category := utf8DecodeLoop (cstrBytes domain.category) }

/-- The observable effect of one trampoline call: which callback was invoked
and with which owned arguments. -/
structure CollectInvocation where
  cb : CB
  domains : List BlockedDomain
  metrics : DnsMetrics

/-- `collect_stats`, the `extern "C"` trampoline.  `data` is the opaque
context value (0 models a null pointer); `domains` is the memory at the
blocked-domain array pointer; `num_blocked_domains` the count supplied by the
engine.  Returns `none` when no callback is invoked (null context, or a
context that resolves to no live slot, which in the real program is undefined
behaviour); otherwise returns the invocation the callback receives. -/
def collect_stats (heap : Heap) (data : Nat) (domains : List LibfwBlockedDomain)
    (num_blocked_domains : Nat) (metrics : LibfwDnsMetrics) :
    Option CollectInvocation :=
  if data = 0 then none
  else
    match heap.mem data with
    | none => none
    | some cb =>
      some { cb := cb
             domains := (domains.take num_blocked_domains).map blockedDomainFrom
             metrics := dnsMetricsFrom metrics }

/-- `TpLiteStatsOptions` as deserialized: every knob is optional and absent
fields deserialize to `none` (`#[serde(default)]` on `Option` fields), and an
absent `dns_server_ips` deserializes to the empty list.  IP addresses are
modelled as opaque `Nat` identifiers. -/
structure TpLiteStatsOptions where
  dns_server_ips : List Nat
  blocked_domains_buffer_size : Option Nat
  callback_interval_s : Option Nat
  cache_size : Option Nat
  max_open_requests : Option Nat

/-- The serde input for the options record: which fields the input sets.
`#[serde(default)]` turns each absent field into its `Default` value. -/
structure OptionsInput where
  dns_server_ips : Option (List Nat)
  blocked_domains_buffer_size : Option Nat
  callback_interval_s : Option Nat
  cache_size : Option Nat
  max_open_requests : Option Nat

/-- Parsing (serde deserialization) of `TpLiteStatsOptions`: each field is
taken from the input when set, otherwise defaulted (`[]` for the list,
`none` for the optional knobs). -/
def parseOptions (i : OptionsInput) : TpLiteStatsOptions :=
  { dns_server_ips := i.dns_server_ips.getD []
    blocked_domains_buffer_size := i.blocked_domains_buffer_size
    callback_interval_s := i.callback_interval_s
    cache_size := i.cache_size
    max_open_requests := i.max_open_requests }

/-- Modelled from the spec: the resolution of the documented default values is
not part of `tp_lite_stats.rs` (the consumer of the options applies them);
the doc comments and the spec give `blocked_domains_buffer_size` default
100. -/
def resolvedBufferSize (o : TpLiteStatsOptions) : Nat :=
  o.blocked_domains_buffer_size.getD 100

/-- Modelled from the spec: `callback_interval_s` defaults to 5. -/
def resolvedCallbackInterval (o : TpLiteStatsOptions) : Nat :=
  o.callback_interval_s.getD 5

/-- Modelled from the spec: `cache_size` defaults to 512. -/
def resolvedCacheSize (o : TpLiteStatsOptions) : Nat :=
  o.cache_size.getD 512

/-- Modelled from the spec: `max_open_requests` defaults to the resolved
value of `blocked_domains_buffer_size` when unset. -/
def resolvedMaxOpenRequests (o : TpLiteStatsOptions) : Nat :=
  o.max_open_requests.getD (resolvedBufferSize o)

theorem register_fst (m : CallbackManager) (h : Heap) (cb : CB) :
    (m.register h cb).1 = m := rfl

theorem register_mem_addr (m : CallbackManager) (h : Heap) (cb : CB) :
    (m.register h cb).2.mem m.addr = some cb := by
  simp [CallbackManager.register]

theorem registerSeq_cons (m : CallbackManager) (h : Heap) (cb : CB)
    (cbs : List CB) :
    registerSeq m h (cb :: cbs) = registerSeq m (m.register h cb).2 cbs := rfl

theorem registerSeq_fst (m : CallbackManager) (h : Heap) (cbs : List CB) :
    (registerSeq m h cbs).1 = m := by
  induction cbs generalizing h with
  | nil => rfl
  | cons cb cbs ih => rw [registerSeq_cons]; exact ih _

theorem registerSeq_mem_addr (m : CallbackManager) (h : Heap) (c0 : CB)
    (hres : h.mem m.addr = some c0) (cbs : List CB) :
    (registerSeq m h cbs).2.mem m.addr = some (cbs.getLastD c0) := by
  induction cbs generalizing h c0 with
  | nil => exact hres
  | cons cb cbs ih =>
    rw [registerSeq_cons, List.getLastD_cons]
    exact ih _ _ (register_mem_addr m h cb)

theorem foldl_insert_apply (l : List (Nat × Nat)) (m : HMap) (k : Nat) :
    (l.foldl (fun acc p => acc.insert p.1 p.2) m) k =
      ((l.reverse.find? (fun p => p.1 == k)).map (fun p => p.2)).or (m k) := by
  induction l generalizing m with
  | nil => rfl
  | cons p t ih =>
    rw [List.foldl_cons, ih, List.reverse_cons, List.find?_append,
      Option.map_or', Option.or_assoc]
    rcases hfind : t.reverse.find? (fun q => q.1 == k) with - | q
    · simp only [hfind, Option.map_none, Option.none_or]
      by_cases hk : k = p.1
      · simp [List.find?, hk, HMap.insert]
      · have hne : (p.1 == k) = false := by
          simp only [beq_eq_false_iff_ne, ne_eq]
          omega
        simp [List.find?, hne, HMap.insert, hk]
    · simp [hfind]

theorem hashMapCollect_apply (l : List (Nat × Nat)) (k : Nat) :
    hashMapCollect l k =
      (l.reverse.find? (fun p => p.1 == k)).map (fun p => p.2) := by
  rw [hashMapCollect, foldl_insert_apply]
  exact Option.or_none

theorem nodup_keys_mem_eq {l : List (Nat × Nat)}
    (h : (l.map Prod.fst).Nodup) {k a b : Nat}
    (ha : (k, a) ∈ l) (hb : (k, b) ∈ l) : a = b := by
  induction l with
  | nil => simp at ha
  | cons p t ih =>
    rw [List.map_cons, List.nodup_cons] at h
    rcases List.mem_cons.1 ha with ha' | ha' <;>
      rcases List.mem_cons.1 hb with hb' | hb'
    · have heq := ha'.trans hb'.symm
      injection heq
    · exfalso
      have hk : k ∈ t.map Prod.fst := List.mem_map_of_mem Prod.fst hb'
      rw [← ha'] at h
      exact h.1 hk
    · exfalso
      have hk : k ∈ t.map Prod.fst := List.mem_map_of_mem Prod.fst ha'
      rw [← hb'] at h
      exact h.1 hk
    · exact ih h.2 ha' hb'

theorem hashMapCollect_nodup_mem (l : List (Nat × Nat))
    (h : (l.map Prod.fst).Nodup) (k v : Nat) :
    hashMapCollect l k = some v ↔ (k, v) ∈ l := by
  rw [hashMapCollect_apply]
  constructor
  · intro hsome
    rcases hfind : l.reverse.find? (fun p => p.1 == k) with - | q
    · rw [hfind] at hsome; simp at hsome
    · rw [hfind] at hsome
      simp at hsome
      have hq1 : q.1 = k := by
        have := List.find?_some hfind
        simpa [beq_iff_eq] using this
      have hqmem : q ∈ l := List.mem_reverse.1 (List.mem_of_find?_eq_some hfind)
      have hq : q = (k, v) := by
        rcases q with ⟨q1, q2⟩
        simp only at hq1 hsome
        rw [hq1, hsome]
      exact hq ▸ hqmem
  · intro hmem
    rcases hfind : l.reverse.find? (fun p => p.1 == k) with - | q
    · exfalso
      have hex : ∃ x ∈ l.reverse, (x.1 == k) = true :=
        ⟨(k, v), List.mem_reverse.2 hmem, by simp⟩
      have hsome := List.find?_isSome.2 hex
      rw [hfind] at hsome
      simp at hsome
    · have hq1 : q.1 = k := by
        have := List.find?_some hfind
        simpa [beq_iff_eq] using this
      have hqmem : q ∈ l := List.mem_reverse.1 (List.mem_of_find?_eq_some hfind)
      have hv : q.2 = v := by
        refine nodup_keys_mem_eq h ?_ hmem
        rcases q with ⟨q1, q2⟩
        exact hq1 ▸ hqmem
      simp [hfind, hv]

theorem utf8EncodeChar_one (c : Nat) (h : c < 0x80) :
    utf8EncodeChar c = [c] := by
  rw [utf8EncodeChar, if_pos h]

theorem utf8EncodeChar_two (b0 b1 : Nat) (h0 : 0xC2 ≤ b0) (h0' : b0 < 0xE0)
    (h1 : 0x80 ≤ b1) (h1' : b1 < 0xC0) :
    utf8EncodeChar ((b0 - 0xC0) * 0x40 + (b1 - 0x80)) = [b0, b1] := by
  rw [utf8EncodeChar, if_neg (by omega), if_pos (by omega)]
  simp only [List.cons.injEq, and_true]
  constructor <;> omega

theorem utf8EncodeChar_three (b0 b1 b2 : Nat) (h0 : 0xE0 ≤ b0)
    (h0' : b0 < 0xF0) (hlo : 0xA0 ≤ b1 ∨ b0 ≠ 0xE0) (hhi : b1 < 0xA0 ∨ b0 ≠ 0xED)
    (h1 : 0x80 ≤ b1) (h1' : b1 < 0xC0) (h2 : 0x80 ≤ b2) (h2' : b2 < 0xC0) :
    utf8EncodeChar ((b0 - 0xE0) * 0x1000 + (b1 - 0x80) * 0x40 + (b2 - 0x80)) =
      [b0, b1, b2] := by
  rw [utf8EncodeChar, if_neg (by omega), if_neg (by omega), if_pos (by omega)]
  simp only [List.cons.injEq, and_true]
  refine ⟨by omega, by omega, by omega⟩

theorem utf8EncodeChar_four (b0 b1 b2 b3 : Nat) (h0 : 0xF0 ≤ b0)
    (h0' : b0 < 0xF5) (hlo : 0x90 ≤ b1 ∨ b0 ≠ 0xF0) (hhi : b1 < 0x90 ∨ b0 ≠ 0xF4)
    (h1 : 0x80 ≤ b1) (h1' : b1 < 0xC0) (h2 : 0x80 ≤ b2) (h2' : b2 < 0xC0)
    (h3 : 0x80 ≤ b3) (h3' : b3 < 0xC0) :
    utf8EncodeChar
        ((b0 - 0xF0) * 0x40000 + (b1 - 0x80) * 0x1000 + (b2 - 0x80) * 0x40 +
          (b3 - 0x80)) =
      [b0, b1, b2, b3] := by
  rw [utf8EncodeChar, if_neg (by omega), if_neg (by omega), if_neg (by omega)]
  simp only [List.cons.injEq, and_true]
  refine ⟨by omega, by omega, by omega, by omega⟩

theorem utf8Step_sound {b0 : Nat} {rest : List Nat} {c : Nat} {rem : List Nat}
    (h : utf8Step b0 rest = (c, true, rem)) :
    b0 :: rest = utf8EncodeChar c ++ rem := by
  unfold utf8Step at h
  repeat' split at h
  all_goals
    simp only [Prod.mk.injEq, Bool.false_eq_true, false_and, and_false] at h
  all_goals obtain ⟨hc, -, hrem⟩ := h
  all_goals subst hc
  all_goals subst hrem
  · rw [utf8EncodeChar_one b0 (by omega)]; rfl
  · rw [utf8EncodeChar_two b0 _ (by omega) (by omega) (by omega) (by omega)]
    rfl
  · rw [utf8EncodeChar_three b0 _ _ (by omega) (by omega) (by tauto) (by tauto)
      (by omega) (by omega) (by omega) (by omega)]
    rfl
  · rw [utf8EncodeChar_four b0 _ _ _ (by omega) (by omega) (by tauto) (by tauto)
      (by omega) (by omega) (by omega) (by omega) (by omega) (by omega)]
    rfl

theorem utf8Step_not_ok {b0 : Nat} {rest : List Nat} {c : Nat} {rem : List Nat}
    (h : utf8Step b0 rest = (c, false, rem)) : c = 0xFFFD := by
  unfold utf8Step at h
  repeat' split at h
  all_goals
    simp only [Prod.mk.injEq, Bool.true_eq_false, and_false, false_and] at h
  all_goals exact h.1.symm

theorem utf8Encode_cons (c : Nat) (cps : List Nat) :
    utf8Encode (c :: cps) = utf8EncodeChar c ++ utf8Encode cps := rfl

theorem utf8_encode_decode (s : List Nat) :
    utf8ValidLoop s = true → utf8Encode (utf8DecodeLoop s) = s := by
  induction s using utf8DecodeLoop.induct with
  | case1 => intro _; rw [utf8DecodeLoop]; rfl
  | case2 b0 rest ih =>
    intro hv
    rw [utf8ValidLoop] at hv
    rw [Bool.and_eq_true] at hv
    rw [utf8DecodeLoop, utf8Encode_cons, ih hv.2]
    have hs : utf8Step b0 rest =
        ((utf8Step b0 rest).1, true, (utf8Step b0 rest).2.2) := by
      have h1 := hv.1
      rcases hstep : utf8Step b0 rest with ⟨c, ok, rem⟩
      rw [hstep] at h1
      simp only at h1
      rw [h1]
    exact (utf8Step_sound hs).symm

theorem utf8_invalid_mem (s : List Nat) :
    utf8ValidLoop s = false → 0xFFFD ∈ utf8DecodeLoop s := by
  induction s using utf8DecodeLoop.induct with
  | case1 => intro hv; simp [utf8ValidLoop] at hv
  | case2 b0 rest ih =>
    intro hv
    rw [utf8ValidLoop] at hv
    rw [Bool.and_eq_false_iff] at hv
    rw [utf8DecodeLoop]
    rcases hv with hok | hrest
    · rcases hstep : utf8Step b0 rest with ⟨c, p⟩
      rcases p with ⟨ok, rem⟩
      rw [hstep] at hok
      simp only at hok
      subst hok
      rw [utf8Step_not_ok hstep]
      exact List.mem_cons_self _ _
    · exact List.mem_cons_of_mem _ (ih hrest)

/-- Claim C1: the opaque handle returned by `CallbackManager::as_raw_ptr`
never changes across any sequence of `register` operations, and at every
moment it still resolves to the callback that is active then: the last
registered one, or the callback that was active before the sequence. -/
theorem claim_stable_handle (m : CallbackManager) (h : Heap) (c0 : CB)
    (hres : activeCallback h m = some c0) (cbs : List CB) :
    (registerSeq m h cbs).1.as_raw_ptr = m.as_raw_ptr ∧
    (registerSeq m h cbs).2.mem m.as_raw_ptr =
      activeCallback (registerSeq m h cbs).2 (registerSeq m h cbs).1 ∧
    (registerSeq m h cbs).2.mem m.as_raw_ptr = some (cbs.getLastD c0) := by
  refine ⟨by rw [registerSeq_fst], ?_, registerSeq_mem_addr m h c0 hres cbs⟩
  rw [registerSeq_fst]
  rfl

theorem claim_stable_handle_witness :
    (registerSeq ⟨1⟩ ⟨fun a => if a = 1 then some NoopCallback else none, 2⟩
        [5, 9]).1.as_raw_ptr = 1 ∧
    (registerSeq ⟨1⟩ ⟨fun a => if a = 1 then some NoopCallback else none, 2⟩
        [5, 9]).2.mem 1 = some 9 := by
  have := claim_stable_handle ⟨1⟩
    ⟨fun a => if a = 1 then some NoopCallback else none, 2⟩ NoopCallback rfl
    [5, 9]
  exact ⟨this.1, this.2.2⟩

/-- Claim C2: invoking the trampoline `collect_stats` with a null context
value returns immediately with no callback invocation, whatever the heap,
the domain array, the count and the metrics are. -/
theorem claim_null_context_noop (heap : Heap)
    (domains : List LibfwBlockedDomain) (num_blocked_domains : Nat)
    (metrics : LibfwDnsMetrics) :
    collect_stats heap 0 domains num_blocked_domains metrics = none := rfl

/-- Claim C3: the metrics conversion turns each distribution array into a
mapping totally (no panic, no rejection); a lookup returns the count of the
last pair in traversal order with that key, and when the keys are pairwise
distinct the mapping contains exactly the given associations. -/
theorem claim_distribution_conversion (metrics : LibfwDnsMetrics) :
    (∀ k, (dnsMetricsFrom metrics).record_type_distribution k =
        ((recordTypePairs metrics).reverse.find? (fun p => p.1 == k)).map
          (fun p => p.2)) ∧
    (((recordTypePairs metrics).map Prod.fst).Nodup →
      ∀ k v, (dnsMetricsFrom metrics).record_type_distribution k = some v ↔
        (k, v) ∈ recordTypePairs metrics) ∧
    (∀ k, (dnsMetricsFrom metrics).response_code_distribution k =
        ((responseCodePairs metrics).reverse.find? (fun p => p.1 == k)).map
          (fun p => p.2)) ∧
    (((responseCodePairs metrics).map Prod.fst).Nodup →
      ∀ k v, (dnsMetricsFrom metrics).response_code_distribution k = some v ↔
        (k, v) ∈ responseCodePairs metrics) := by
  refine ⟨fun k => ?_, fun h k v => ?_, fun k => ?_, fun h k v => ?_⟩
  · exact hashMapCollect_apply _ k
  · exact hashMapCollect_nodup_mem _ h k v
  · exact hashMapCollect_apply _ k
  · exact hashMapCollect_nodup_mem _ h k v

theorem claim_distribution_conversion_witness :
    ((dnsMetricsFrom
          ⟨0, 0, 0, 0, 0, [⟨1, 10⟩, ⟨2, 20⟩], 2, [⟨3, 30⟩],
            1⟩).record_type_distribution 1 = some 10 ↔
      ((1 : Nat), (10 : Nat)) ∈
        recordTypePairs ⟨0, 0, 0, 0, 0, [⟨1, 10⟩, ⟨2, 20⟩], 2, [⟨3, 30⟩], 1⟩) :=
  (claim_distribution_conversion _).2.1 (by decide) 1 10

/-- Claim C4: converting a foreign blocked-domain record to owned text never
fails: for each of the two text fields, a well-formed UTF-8 byte sequence
round-trips exactly (re-encoding the decoded text yields the original
bytes), and an ill-formed one decodes with the substitution marker U+FFFD
appearing in the result. -/
theorem claim_lossy_text_decoding (domain : LibfwBlockedDomain) :
    (utf8ValidLoop (cstrBytes domain.domain_name) = true →
      utf8Encode ((blockedDomainFrom domain).domain_name) =
        cstrBytes domain.domain_name) ∧
    (utf8ValidLoop (cstrBytes domain.domain_name) = false →
      0xFFFD ∈ (blockedDomainFrom domain).domain_name) ∧
    (utf8ValidLoop (cstrBytes domain.category) = true →
      utf8Encode ((blockedDomainFrom domain).category) =
        cstrBytes domain.category) ∧
    (utf8ValidLoop (cstrBytes domain.category) = false →
      0xFFFD ∈ (blockedDomainFrom domain).category) := by
  refine ⟨fun hv => ?_, fun hv => ?_, fun hv => ?_, fun hv => ?_⟩
  · exact utf8_encode_decode _ hv
  · exact utf8_invalid_mem _ hv
  · exact utf8_encode_decode _ hv
  · exact utf8_invalid_mem _ hv

theorem claim_lossy_text_decoding_witness :
    utf8Encode
        ((blockedDomainFrom
            ⟨[0x61, 0x62, 0, 0x63], 1, 2, [0xFF, 0]⟩).domain_name) =
      [0x61, 0x62] ∧
    0xFFFD ∈
      (blockedDomainFrom ⟨[0x61, 0x62, 0, 0x63], 1, 2, [0xFF, 0]⟩).category := by
  constructor
  · exact (claim_lossy_text_decoding ⟨[0x61, 0x62, 0, 0x63], 1, 2, [0xFF, 0]⟩).1
      (by simp [cstrBytes, utf8ValidLoop, utf8Step])
  · exact
      (claim_lossy_text_decoding ⟨[0x61, 0x62, 0, 0x63], 1, 2, [0xFF, 0]⟩).2.2.2
      (by simp [cstrBytes, utf8ValidLoop, utf8Step])

/-- Claim C5: with a non-null context resolving to a live callback, and the
engine contract that the array holds at least `num_blocked_domains` records,
the callback receives exactly `num_blocked_domains` owned entries, in the
order of the foreign array. -/
theorem claim_count_and_order (heap : Heap) (data : Nat) (cb : CB)
    (domains : List LibfwBlockedDomain) (num_blocked_domains : Nat)
    (metrics : LibfwDnsMetrics) (inv : CollectInvocation)
    (hnz : data ≠ 0) (hres : heap.mem data = some cb)
    (hlen : num_blocked_domains ≤ domains.length)
    (hcall : collect_stats heap data domains num_blocked_domains metrics =
      some inv) :
    inv.domains.length = num_blocked_domains ∧
      ∀ i, i < num_blocked_domains →
        inv.domains[i]? = (domains[i]?).map blockedDomainFrom := by
  unfold collect_stats at hcall
  rw [if_neg hnz, hres] at hcall
  injection hcall with hcall
  subst hcall
  constructor
  · simp only [List.length_map, List.length_take]
    omega
  · intro i hi
    simp only [List.getElem?_map, List.getElem?_take, if_pos hi]

theorem claim_count_and_order_witness :
    (⟨7,
        (List.take 1
            [(⟨[0], 0, 0, [0]⟩ : LibfwBlockedDomain),
              ⟨[0], 1, 1, [0]⟩]).map blockedDomainFrom,
        dnsMetricsFrom ⟨0, 0, 0, 0, 0, [], 0, [], 0⟩⟩ :
      CollectInvocation).domains.length = 1 := by
  have := claim_count_and_order ⟨fun a => if a = 1 then some 7 else none, 2⟩ 1 7
    [⟨[0], 0, 0, [0]⟩, ⟨[0], 1, 1, [0]⟩] 1 ⟨0, 0, 0, 0, 0, [], 0, [], 0⟩
    ⟨7,
      (List.take 1
          [(⟨[0], 0, 0, [0]⟩ : LibfwBlockedDomain),
            ⟨[0], 1, 1, [0]⟩]).map blockedDomainFrom,
      dnsMetricsFrom ⟨0, 0, 0, 0, 0, [], 0, [], 0⟩⟩
    (by decide) rfl (by decide) rfl
  exact this.1

/-- Claim C6: every numeric field is copied by value unchanged: the five
counters of the produced `DnsMetrics` equal those of the foreign metrics,
and the `record_type` and `timestamp` of each produced `BlockedDomain` equal
those of the foreign record. -/
theorem claim_numeric_copy :
    (∀ metrics : LibfwDnsMetrics,
      (dnsMetricsFrom metrics).num_requests = metrics.num_requests ∧
      (dnsMetricsFrom metrics).num_responses = metrics.num_responses ∧
      (dnsMetricsFrom metrics).num_malformed_requests =
        metrics.num_malformed_requests ∧
      (dnsMetricsFrom metrics).num_malformed_responses =
        metrics.num_malformed_responses ∧
      (dnsMetricsFrom metrics).num_cache_hits = metrics.num_cache_hits) ∧
    ∀ domain : LibfwBlockedDomain,
      (blockedDomainFrom domain).record_type = domain.record_type ∧
      (blockedDomainFrom domain).timestamp = domain.timestamp :=
  ⟨fun _ => ⟨rfl, rfl, rfl, rfl, rfl⟩, fun _ => ⟨rfl, rfl⟩⟩

/-- Claim C7: parsing options from an input with no optional fields set
resolves to `blocked_domains_buffer_size = 100`, `callback_interval_s = 5`,
`cache_size = 512` and `max_open_requests = 100`; with
`blocked_domains_buffer_size = 42` and `max_open_requests` unset,
`max_open_requests` resolves to 42. -/
theorem claim_options_defaulting :
    (parseOptions ⟨none, none, none, none, none⟩).dns_server_ips = [] ∧
    resolvedBufferSize (parseOptions ⟨none, none, none, none, none⟩) = 100 ∧
    resolvedCallbackInterval (parseOptions ⟨none, none, none, none, none⟩) =
      5 ∧
    resolvedCacheSize (parseOptions ⟨none, none, none, none, none⟩) = 512 ∧
    resolvedMaxOpenRequests (parseOptions ⟨none, none, none, none, none⟩) =
      100 ∧
    resolvedMaxOpenRequests (parseOptions ⟨none, some 42, none, none, none⟩) =
      42 :=
  ⟨rfl, rfl, rfl, rfl, rfl, rfl⟩

/-- Claim C8: a trampoline invocation with a non-null live context, a
zero-length blocked-domain array and zero-length distribution arrays hands
the callback an empty domain sequence and a `DnsMetrics` whose two
distribution mappings are both empty. -/
theorem claim_empty_inputs (heap : Heap) (data : Nat) (cb : CB)
    (domains : List LibfwBlockedDomain) (metrics : LibfwDnsMetrics)
    (hnz : data ≠ 0) (hres : heap.mem data = some cb)
    (hrt : metrics.num_record_types = 0)
    (hrc : metrics.num_response_codes = 0) :
    collect_stats heap data domains 0 metrics =
      some ⟨cb, [], dnsMetricsFrom metrics⟩ ∧
    (dnsMetricsFrom metrics).record_type_distribution = HMap.empty ∧
    (dnsMetricsFrom metrics).response_code_distribution = HMap.empty := by
  refine ⟨?_, ?_, ?_⟩
  · unfold collect_stats
    rw [if_neg hnz, hres]
    rfl
  · show hashMapCollect (recordTypePairs metrics) = HMap.empty
    rw [recordTypePairs, hrt]
    rfl
  · show hashMapCollect (responseCodePairs metrics) = HMap.empty
    rw [responseCodePairs, hrc]
    rfl

theorem claim_empty_inputs_witness :
    collect_stats ⟨fun a => if a = 1 then some 7 else none, 2⟩ 1
        [⟨[0], 0, 0, [0]⟩] 0 ⟨1, 2, 3, 4, 5, [⟨9, 9⟩], 0, [], 0⟩ =
      some ⟨7, [], dnsMetricsFrom ⟨1, 2, 3, 4, 5, [⟨9, 9⟩], 0, [], 0⟩⟩ :=
  (claim_empty_inputs ⟨fun a => if a = 1 then some 7 else none, 2⟩ 1 7
    [⟨[0], 0, 0, [0]⟩] ⟨1, 2, 3, 4, 5, [⟨9, 9⟩], 0, [], 0⟩ (by decide) rfl rfl
    rfl).1

/-- Claim C10: the context handle of a freshly created manager is never null
(it is a live heap allocation), so a trampoline invocation with it, after
any sequence of `register` calls, never takes the disabled early-return
branch: the active callback is always invoked. -/
theorem claim_live_handle_nonnull (h : Heap) (hwf : h.WF) :
    (CallbackManager.new h).1.as_raw_ptr ≠ 0 ∧
    ∀ (cbs : List CB) (domains : List LibfwBlockedDomain)
      (num_blocked_domains : Nat) (metrics : LibfwDnsMetrics),
      (collect_stats
          (registerSeq (CallbackManager.new h).1
            (CallbackManager.new h).2 cbs).2
          (CallbackManager.new h).1.as_raw_ptr domains num_blocked_domains
          metrics).isSome = true := by
  unfold Heap.WF at hwf
  have hnz : (CallbackManager.new h).1.as_raw_ptr ≠ 0 := by
    show h.next ≠ 0
    omega
  refine ⟨hnz, fun cbs domains n metrics => ?_⟩
  have hres : (CallbackManager.new h).2.mem (CallbackManager.new h).1.addr =
      some NoopCallback := by
    show (if h.next = h.next then some NoopCallback else h.mem h.next) =
      some NoopCallback
    rw [if_pos rfl]
  have hmem := registerSeq_mem_addr (CallbackManager.new h).1
    (CallbackManager.new h).2 NoopCallback hres cbs
  simp only [CallbackManager.as_raw_ptr]
  unfold collect_stats
  have hnz' : (CallbackManager.new h).1.addr ≠ 0 := hnz
  rw [if_neg hnz', hmem]
  rfl

theorem claim_live_handle_nonnull_witness :
    (CallbackManager.new Heap.empty).1.as_raw_ptr ≠ 0 ∧
    (collect_stats
        (registerSeq (CallbackManager.new Heap.empty).1
          (CallbackManager.new Heap.empty).2 [4]).2
        (CallbackManager.new Heap.empty).1.as_raw_ptr [] 0
        ⟨0, 0, 0, 0, 0, [], 0, [], 0⟩).isSome = true := by
  have := claim_live_handle_nonnull Heap.empty (Nat.le_refl 1)
  exact ⟨this.1, this.2 [4] [] 0 ⟨0, 0, 0, 0, 0, [], 0, [], 0⟩⟩

end TpLiteStats
